import Mathlib

/-!
# Console lifecycle commands of the decompiler (`consolemain.cc`)

A shallow embedding of the four console commands `IfcLoadFile`, `IfcAddpath`,
`IfcSave` and `IfcRestore` of
`Ghidra/Features/Decompiler/src/decompile/cpp/consolemain.cc`.

* The argument stream `istream &s` is a value of `IStream`: the unread
  characters and the `eofbit` / `failbit` state flags, with the standard
  semantics of `s >> str` and `s >> ws`.
* The mutable globals the commands touch (`dcp->conf`, `dcp->experimental_file`,
  the file-static `savefile`, `SleighArchitecture::specpaths`, the output sink
  `*status->optr`) are the fields of `ConsoleState`, threaded explicitly.  The
  field `trace` records, in order, every call a command makes into a
  collaborator.
* Collaborators whose code lives elsewhere (the capability list, the document
  parser, the `Architecture` methods, the file system) are the fields of `Env`.
* C++ exceptions are values of `Exn`; a command ends in an `Outcome`.
-/

namespace Console

/-! ## Input streams -/

/-- The classification `isspace` in the "C" locale: space and the five
control characters `\t \n \v \f \r` (codes 9 to 13). -/
def isspace (c : Char) : Bool :=
  c.toNat == 32 || (decide (9 ≤ c.toNat) && decide (c.toNat ≤ 13))

/-- An input stream: the characters not yet read and the two state flags a
string stream can raise. -/
structure IStream where
  buf : List Char
  eofbit : Bool
  failbit : Bool
deriving DecidableEq

namespace IStream

/-- A fresh stream over a text, as `istringstream is(text)`. -/
def ofText (text : List Char) : IStream :=
  { buf := text, eofbit := false, failbit := false }

/-- The member `good()`: no state flag is raised. -/
def good (s : IStream) : Bool := !s.eofbit && !s.failbit

/-- The member `eof()`. -/
def eof (s : IStream) : Bool := s.eofbit

/-- The constructor of `istream::sentry`.  A stream that is not good gets
`failbit` and the sentry is false.  Otherwise, unless `noskipws`, leading
whitespace is discarded; running out of characters while doing so raises
`failbit | eofbit` and the sentry is false. -/
def sentry (s : IStream) (noskipws : Bool) : IStream × Bool :=
  if !s.good then ({ s with failbit := true }, false)
  else if noskipws then (s, true)
  else
    let rest := s.buf.dropWhile isspace
    if rest.isEmpty then ({ buf := [], eofbit := true, failbit := true }, false)
    else ({ s with buf := rest }, true)

/-- The extraction `s >> str` for a `std::string` (field width 0).  Only when
the sentry is true is `str` erased; characters are then taken up to the next
whitespace or the end of input, the latter raising `eofbit`; extracting nothing
raises `failbit`.  When the sentry is false `str` keeps its old value. -/
def extract (s : IStream) (str : String) : IStream × String :=
  let r := s.sentry false
  if r.2 then
    let tok := r.1.buf.takeWhile (fun c => !isspace c)
    let rest := r.1.buf.dropWhile (fun c => !isspace c)
    ({ buf := rest,
       eofbit := r.1.eofbit || rest.isEmpty,
       failbit := r.1.failbit || tok.isEmpty }, String.mk tok)
  else (r.1, str)

/-- The manipulator `s >> ws`: an unformatted input function (sentry without
whitespace skipping) that discards whitespace and raises `eofbit`, not
`failbit`, when it stops because the input is exhausted. -/
def ws (s : IStream) : IStream :=
  let r := s.sentry true
  if r.2 then
    let rest := r.1.buf.dropWhile isspace
    { r.1 with buf := rest, eofbit := r.1.eofbit || rest.isEmpty }
  else r.1

end IStream

/-! ## Exceptions and outcomes -/

/-- The exception classes that can cross a command, each with its `explain`
text. -/
inductive Exn where
  | IfaceParseError (explain : String)
  | IfaceExecutionError (explain : String)
  | XmlError (explain : String)
  | LowlevelError (explain : String)
deriving DecidableEq

/-- Is the exception an `IfaceExecutionError`? -/
def Exn.isExecutionError : Exn → Bool
  | .IfaceExecutionError _ => true
  | _ => false

/-- Is the exception an `IfaceParseError`? -/
def Exn.isParseError : Exn → Bool
  | .IfaceParseError _ => true
  | _ => false

/-- How a call of `execute` ends: it returns, an exception leaves it, or it
calls a member function through a null `Architecture` pointer (undefined
behaviour). -/
inductive Outcome where
  | returned
  | threw (e : Exn)
  | nullDeref
deriving DecidableEq

/-! ## Documents -/

/-- An element of a parsed document: `getName()` and the rest of the element,
which the commands never inspect. -/
structure Element where
  name : String
  content : String
deriving DecidableEq

/-- A parsed document; `getRoot()` is the field `root`. -/
structure Document where
  root : Element
deriving DecidableEq

/-- The class `DocumentStorage`: the documents it has opened and the tags
registered with it. -/
structure DocumentStorage where
  doclist : List Document
  tagmap : List Element
deriving DecidableEq

/-- The default-constructed `DocumentStorage store;`. -/
def DocumentStorage.empty : DocumentStorage := { doclist := [], tagmap := [] }

/-- The member `registerTag(el)`. -/
def DocumentStorage.registerTag (st : DocumentStorage) (el : Element) : DocumentStorage :=
  { st with tagmap := st.tagmap ++ [el] }

/-- The bookkeeping of a successful `openDocument`: the store keeps the
document. -/
def DocumentStorage.keep (st : DocumentStorage) (doc : Document) : DocumentStorage :=
  { st with doclist := st.doclist ++ [doc] }

/-! ## Collaborators -/

/-- What a mutating `Architecture` method leaves behind: the object after the
call (possibly only partly modified), what it printed on the output sink it
was built with, and the exception it threw, if any. -/
structure ArchResult (Arch : Type) where
  arch : Arch
  printed : List String
  thrown : Option Exn

/-- An entry of the capability list: `getName()`, the two recognisers and
`buildArchitecture(filename,target,estream)`. -/
structure ArchitectureCapability (Arch : Type) where
  name : String
  isFileMatch : String → Bool
  isXmlMatch : Document → Bool
  buildArchitecture : String → String → Arch

/-- Everything a command calls that is defined outside `consolemain.cc`,
together with the two preprocessor switches of the file.
`openDocument` opens and parses a file; it fails only by throwing `XmlError`,
and the error value is the text of that exception.  `saveXml` gives the text
written to the file stream and the exception thrown, if any.  `fsOpen` tells
whether `fs.open(name.c_str())` leaves the file stream usable. -/
structure Env (Arch : Type) where
  CPUI_RULECOMPILE : Bool
  OPACTION_DEBUG : Bool
  thelist : List (ArchitectureCapability Arch)
  openDocument : String → Except String Document
  init : Arch → DocumentStorage → ArchResult Arch
  restoreXml : Arch → DocumentStorage → ArchResult Arch
  readLoaderSymbols : Arch → String → ArchResult Arch
  setDebugStream : Arch → Arch
  getDescription : Arch → String
  saveXml : Arch → String × Option Exn
  fsOpen : String → Bool

/-- Modelled from the spec: `ArchitectureCapability::findCapability(filename)`
is declared in a header and defined in another file.  Section 4.1: resolution
order is insertion order and the first match wins; "none" when nothing
matches. -/
def findCapability {Arch : Type} (env : Env Arch) (filename : String) :
    Option (ArchitectureCapability Arch) :=
  env.thelist.find? (fun c => c.isFileMatch filename)

/-- Modelled from the spec: `ArchitectureCapability::findCapability(doc)`,
defined in another file.  Section 4.1: resolution by document root, first
match in insertion order, "none" when nothing matches. -/
def findCapabilityDoc {Arch : Type} (env : Env Arch) (doc : Document) :
    Option (ArchitectureCapability Arch) :=
  env.thelist.find? (fun c => c.isXmlMatch doc)

/-! ## Console state -/

/-- The calls a command makes into its collaborators. -/
inductive Event where
  | findCapability (filename : String)
  | findCapabilityDoc (doc : Document)
  | buildArchitecture (capa filename target : String)
  | openDocument (filename : String)
  | init
  | restoreXml
  | readLoaderSymbols (path : String)
  | deleteArchitecture
  | clearArchitecture
  | addDir2Path (path : String)
  | fsOpen (filename : String)
  | saveXml (filename content : String)
  | fsClose (filename : String)
deriving DecidableEq

/-- The mutable state the four commands share. -/
structure ConsoleState (Arch : Type) where
  conf : Option Arch
  experimental_file : String
  savefile : String
  specpaths : List String
  optr : List String
  trace : List Event

/-- One `*status->optr << ... << endl;` statement: a line on the sink. -/
def ConsoleState.emit {Arch : Type} (σ : ConsoleState Arch) (line : String) :
    ConsoleState Arch :=
  { σ with optr := σ.optr ++ [line] }

/-- Output produced by a collaborator on the same sink. -/
def ConsoleState.emitAll {Arch : Type} (σ : ConsoleState Arch) (lines : List String) :
    ConsoleState Arch :=
  { σ with optr := σ.optr ++ lines }

/-- Record a call into a collaborator. -/
def ConsoleState.log {Arch : Type} (σ : ConsoleState Arch) (ev : Event) :
    ConsoleState Arch :=
  { σ with trace := σ.trace ++ [ev] }

/-- Modelled from the spec: `IfaceDecompData::clearArchitecture()` is defined
in another file.  Section 4.2: it unconditionally clears any existing
Workspace, leaving the pointer null. -/
def clearArchitecture {Arch : Type} (σ : ConsoleState Arch) : ConsoleState Arch :=
  { σ.log Event.clearArchitecture with conf := none }

/-- Modelled from the spec: `FileManage::addDir2Path(path)` is defined in
another file.  Section 4.2: the path is appended to the process-wide list of
additional search locations, without validation. -/
def addDir2Path {Arch : Type} (σ : ConsoleState Arch) (path : String) : ConsoleState Arch :=
  { σ.log (Event.addDir2Path path) with specpaths := σ.specpaths ++ [path] }

/-- The result of running a command: how it ended, the state and the argument
stream it leaves. -/
structure Step (Arch : Type) where
  outcome : Outcome
  state : ConsoleState Arch
  stream : IStream

/-! ## `IfcLoadFile` -/

namespace IfcLoadFile

/-- Lines 29-35 of `IfcLoadFile::execute`: `s >> filename`, and when the
stream is not at end of file afterwards the token read becomes the target and
a second `s >> filename` follows; otherwise the target is `"default"`.
Returns the stream, `filename` and `target`. -/
def readArgs (s : IStream) : IStream × String × String :=
  let r1 := s.extract ""
  if !r1.1.eof then
    let r2 := r1.1.extract r1.2
    (r2.1, r2.2, r1.2)
  else (r1.1, r1.2, "default")

/-- What the block under `#ifdef CPUI_RULECOMPILE` does: the lines it prints,
the calls it makes and the document store it leaves for `init`. -/
structure RulesBlock where
  printed : List String
  calls : List Event
  store : DocumentStorage

/-- Lines 43-60: `DocumentStorage store;` and the block under
`#ifdef CPUI_RULECOMPILE`.  When an experimental rule file is configured it is
opened into `store` and its root is registered if it is named
`experimental_rules`; an `XmlError` is printed and the rules are skipped. -/
def experimentalRules {Arch : Type} (env : Env Arch) (experimental_file : String) :
    RulesBlock :=
  if env.CPUI_RULECOMPILE && experimental_file.length != 0 then
    let line := "Trying to parse " ++ experimental_file ++ " for experimental rules"
    match env.openDocument experimental_file with
    | .ok doc =>
      if doc.root.name == "experimental_rules" then
        { printed := [line], calls := [Event.openDocument experimental_file],
          store := (DocumentStorage.empty.keep doc).registerTag doc.root }
      else
        { printed := [line, "Wrong tag type for experimental rules: " ++ doc.root.name],
          calls := [Event.openDocument experimental_file],
          store := DocumentStorage.empty.keep doc }
    | .error explain =>
      { printed := [line, explain, "Skipping experimental rules"],
        calls := [Event.openDocument experimental_file],
        store := DocumentStorage.empty }
  else { printed := [], calls := [], store := DocumentStorage.empty }

/-- Lines 72-78: the error text and `Could not create architecture` are
printed, the architecture is deleted, `dcp->conf` is reset to null and the
command returns. -/
def rollback {Arch : Type} (σ : ConsoleState Arch) (errmsg : String) (s : IStream) :
    Step Arch :=
  { outcome := .returned,
    state := { ((σ.emit errmsg).emit "Could not create architecture").log
      Event.deleteArchitecture with conf := none },
    stream := s }

/-- Lines 81-84: under `OPACTION_DEBUG` the debug stream is set; then the
success line is printed. -/
def finish {Arch : Type} (env : Env Arch) (σ : ConsoleState Arch) (filename : String)
    (arch : Arch) (s : IStream) : Step Arch :=
  let arch1 := if env.OPACTION_DEBUG then env.setDebugStream arch else arch
  { outcome := .returned,
    state := { σ with conf := some arch1 }.emit
      (filename ++ " successfully loaded: " ++ env.getDescription arch1),
    stream := s }

/-- Lines 79-80 and what follows: for the capability named `xml` the loader
symbols are read first. -/
def afterInit {Arch : Type} (env : Env Arch) (σ : ConsoleState Arch) (capaName : String)
    (filename : String) (arch : Arch) (s : IStream) : Step Arch :=
  if capaName == "xml" then
    let r := env.readLoaderSymbols arch "::"
    let σ1 := { (σ.log (Event.readLoaderSymbols "::")).emitAll r.printed with
      conf := some r.arch }
    match r.thrown with
    | some e => { outcome := .threw e, state := σ1, stream := s }
    | none => finish env σ1 filename r.arch s
  else finish env σ filename arch s

/-- The body of `IfcLoadFile::execute(istream &s)`. -/
def execute {Arch : Type} (env : Env Arch) (σ : ConsoleState Arch) (s : IStream) :
    Step Arch :=
  match σ.conf with
  | some _ =>
    { outcome := .threw (.IfaceExecutionError "Load image already present"),
      state := σ, stream := s }
  | none =>
    let a := readArgs s
    let filename := a.2.1
    let target := a.2.2
    let σ1 := σ.log (Event.findCapability filename)
    match findCapability env filename with
    | none =>
      { outcome := .threw (.IfaceExecutionError ("Unable to recognize imagefile " ++ filename)),
        state := σ1, stream := a.1 }
    | some capa =>
      let arch := capa.buildArchitecture filename target
      let σ2 := { σ1.log (Event.buildArchitecture capa.name filename target) with
        conf := some arch }
      let x := experimentalRules env σ.experimental_file
      let r := env.init arch x.store
      let σ3 := { σ2 with
        conf := some r.arch,
        optr := σ2.optr ++ x.printed ++ r.printed,
        trace := σ2.trace ++ x.calls ++ [Event.init] }
      match r.thrown with
      | some (.XmlError m) => rollback σ3 m a.1
      | some (.LowlevelError m) => rollback σ3 m a.1
      | some (.IfaceParseError m) =>
        { outcome := .threw (.IfaceParseError m), state := σ3, stream := a.1 }
      | some (.IfaceExecutionError m) =>
        { outcome := .threw (.IfaceExecutionError m), state := σ3, stream := a.1 }
      | none => afterInit env σ3 capa.name filename r.arch a.1

end IfcLoadFile

/-! ## `IfcAddpath` -/

namespace IfcAddpath

/-- The body of `IfcAddpath::execute(istream &s)`. -/
def execute {Arch : Type} (_env : Env Arch) (σ : ConsoleState Arch) (s : IStream) :
    Step Arch :=
  let r := s.extract ""
  if r.2.length == 0 then
    { outcome := .threw (.IfaceParseError "Missing path name"), state := σ, stream := r.1 }
  else
    { outcome := .returned, state := addDir2Path σ r.2, stream := r.1 }

end IfcAddpath

/-! ## `IfcSave` -/

namespace IfcSave

/-- The body of `IfcSave::execute(istream &s)`.  The call
`dcp->conf->saveXml(fs)` goes through `dcp->conf` without a test, so with a
null `conf` it is a null dereference.  When `saveXml` throws, the destructor
of `fs` still closes the file. -/
def execute {Arch : Type} (env : Env Arch) (σ : ConsoleState Arch) (s : IStream) :
    Step Arch :=
  let s1 := s.ws
  let r := if !s1.eof then s1.extract σ.savefile else (s1, σ.savefile)
  let σ1 := { σ with savefile := r.2 }
  if r.2.length == 0 then
    { outcome := .threw (.IfaceParseError "Missing savefile name"), state := σ1, stream := r.1 }
  else
    let σ2 := σ1.log (Event.fsOpen r.2)
    if !env.fsOpen r.2 then
      { outcome := .threw (.IfaceExecutionError ("Unable to open file: " ++ r.2)),
        state := σ2, stream := r.1 }
    else
      match σ.conf with
      | none => { outcome := .nullDeref, state := σ2, stream := r.1 }
      | some arch =>
        let w := env.saveXml arch
        let σ3 := (σ2.log (Event.saveXml r.2 w.1)).log (Event.fsClose r.2)
        match w.2 with
        | some e => { outcome := .threw e, state := σ3, stream := r.1 }
        | none => { outcome := .returned, state := σ3, stream := r.1 }

end IfcSave

/-! ## `IfcRestore` -/

namespace IfcRestore

/-- Lines 134-146 of `IfcRestore::execute`: the architecture is built with
empty file name and target and installed in `dcp->conf`, then `restoreXml`
runs on it; a `LowlevelError` or `XmlError` is rethrown as an
`IfaceExecutionError` with the same text. -/
def build {Arch : Type} (env : Env Arch) (σ : ConsoleState Arch)
    (capa : ArchitectureCapability Arch) (store : DocumentStorage) (s : IStream) :
    Step Arch :=
  let arch := capa.buildArchitecture "" ""
  let r := env.restoreXml arch store
  let σ1 := { ((σ.log (Event.buildArchitecture capa.name "" "")).log
    Event.restoreXml).emitAll r.printed with conf := some r.arch }
  match r.thrown with
  | some (.LowlevelError m) =>
    { outcome := .threw (.IfaceExecutionError m), state := σ1, stream := s }
  | some (.XmlError m) =>
    { outcome := .threw (.IfaceExecutionError m), state := σ1, stream := s }
  | some (.IfaceParseError m) =>
    { outcome := .threw (.IfaceParseError m), state := σ1, stream := s }
  | some (.IfaceExecutionError m) =>
    { outcome := .threw (.IfaceExecutionError m), state := σ1, stream := s }
  | none =>
    let arch1 := if env.OPACTION_DEBUG then env.setDebugStream r.arch else r.arch
    { outcome := .returned,
      state := { σ1 with conf := some arch1 }.emit
        (σ.savefile ++ " successfully loaded: " ++ env.getDescription arch1),
      stream := s }

/-- The body of `IfcRestore::execute(istream &s)`. -/
def execute {Arch : Type} (env : Env Arch) (σ : ConsoleState Arch) (s : IStream) :
    Step Arch :=
  let r := s.extract σ.savefile
  let σ1 := { σ with savefile := r.2 }
  if r.2.length == 0 then
    { outcome := .threw (.IfaceParseError "Missing file name"), state := σ1, stream := r.1 }
  else
    let σ2 := σ1.log (Event.openDocument r.2)
    match env.openDocument r.2 with
    | .error explain => { outcome := .threw (.XmlError explain), state := σ2, stream := r.1 }
    | .ok doc =>
      let store := (DocumentStorage.empty.keep doc).registerTag doc.root
      let σ3 := (clearArchitecture σ2).log (Event.findCapabilityDoc doc)
      match findCapabilityDoc env doc with
      | none =>
        { outcome := .threw (.IfaceExecutionError "Could not find savefile tag"),
          state := σ3, stream := r.1 }
      | some capa => build env σ3 capa store r.1

end IfcRestore

/-! ## Command sequences -/

/-- A console line for one of the four commands, with the text that follows
the command word. -/
inductive Command where
  | load (args : List Char)
  | addpath (args : List Char)
  | save (args : List Char)
  | restore (args : List Char)
deriving DecidableEq

/-- Run one command on a fresh stream over its argument text. -/
def Command.execute {Arch : Type} (env : Env Arch) (σ : ConsoleState Arch) :
    Command → Step Arch
  | .load a => IfcLoadFile.execute env σ (IStream.ofText a)
  | .addpath a => IfcAddpath.execute env σ (IStream.ofText a)
  | .save a => IfcSave.execute env σ (IStream.ofText a)
  | .restore a => IfcRestore.execute env σ (IStream.ofText a)

/-- Modelled from the spec: the session loop (`mainloop`, `runCommand`) is
defined in another file.  Section 4.4 and section 5: commands run strictly
one after another, and after an error has been reported the session goes on
with the next line, in the state the failed command left.  Only the state of
the four commands is threaded, the report lines of the session itself are not
part of it.  A null dereference ends the run: there is no next state. -/
def runCommands {Arch : Type} (env : Env Arch) :
    ConsoleState Arch → List Command → Option (ConsoleState Arch)
  | σ, [] => some σ
  | σ, c :: cs =>
    match (c.execute env σ).outcome with
    | .nullDeref => none
    | _ => runCommands env (c.execute env σ).state cs

/-! ## The remembered file name, in the words of the specification -/

/-- The first whitespace-delimited token of an argument text, if it has
one. -/
def firstToken (args : List Char) : Option String :=
  let tok := (args.dropWhile isspace).takeWhile (fun c => !isspace c)
  if tok.isEmpty then none else some (String.mk tok)

/-- The file name token a console line supplies to `save` or `restore`. -/
def Command.fileToken : Command → Option String
  | .save a => firstToken a
  | .restore a => firstToken a
  | .load _ => none
  | .addpath _ => none

/-- Specification side of the remembered name: the most recent file name token
supplied to a `save` or a `restore` among the commands of a sequence (the head
of the list runs first), or `none` when no such token was ever supplied. -/
def lastFileToken : List Command → Option String
  | [] => none
  | c :: cs =>
    match lastFileToken cs with
    | some t => some t
    | none => c.fileToken

/-! ## A concrete world -/

/-- A concrete architecture: the capability that built it, its construction
arguments and the methods that have run on it. -/
structure SampleArch where
  capa : String
  filename : String
  target : String
  steps : List String
deriving DecidableEq

/-- Two registered capabilities: `xml` recognises the files `image.xml` and
`broken.xml` and documents rooted at `xml_savefile`; `raw` recognises
`image.bin` and documents rooted at `raw_savefile`. -/
def sampleCapabilities : List (ArchitectureCapability SampleArch) :=
  [ { name := "xml",
      isFileMatch := fun f => f == "image.xml" || f == "broken.xml",
      isXmlMatch := fun d => d.root.name == "xml_savefile",
      buildArchitecture := fun f t => { capa := "xml", filename := f, target := t, steps := [] } },
    { name := "raw",
      isFileMatch := fun f => f == "image.bin",
      isXmlMatch := fun d => d.root.name == "raw_savefile",
      buildArchitecture := fun f t => { capa := "raw", filename := f, target := t, steps := [] } } ]

/-- A concrete environment.  `init` fails with an `XmlError` on `broken.xml`;
the documents `state.xml`, `truncated.xml` and `notes.xml` parse, no other
does; `restoreXml` fails with a `LowlevelError` on the content of
`truncated.xml`; every file but `/nodir/out.xml` can be opened for writing. -/
def sampleEnv : Env SampleArch :=
  { CPUI_RULECOMPILE := false,
    OPACTION_DEBUG := false,
    thelist := sampleCapabilities,
    openDocument := fun f =>
      if f == "state.xml" then .ok { root := { name := "xml_savefile", content := "complete" } }
      else if f == "truncated.xml" then
        .ok { root := { name := "xml_savefile", content := "truncated" } }
      else if f == "notes.xml" then .ok { root := { name := "notes", content := "" } }
      else .error ("Unable to open xml document " ++ f),
    init := fun a _ =>
      { arch := { a with steps := a.steps ++ ["init"] },
        printed := [],
        thrown := if a.filename == "broken.xml" then
          some (.XmlError "Unexpected end of document") else none },
    restoreXml := fun a st =>
      { arch := { a with steps := a.steps ++ ["restoreXml"] },
        printed := [],
        thrown := if st.tagmap.any (fun e => e.content == "truncated") then
          some (.LowlevelError "Missing save state") else none },
    readLoaderSymbols := fun a _ =>
      { arch := { a with steps := a.steps ++ ["readLoaderSymbols"] },
        printed := [], thrown := none },
    setDebugStream := fun a => a,
    getDescription := fun a => a.capa ++ " " ++ a.target,
    saveXml := fun _ => ("<save_state/>", none),
    fsOpen := fun f => !(f == "/nodir/out.xml") }

/-- The state of a console that has just started: no architecture, nothing
remembered, nothing printed. -/
def sampleState : ConsoleState SampleArch :=
  { conf := none, experimental_file := "", savefile := "", specpaths := [],
    optr := [], trace := [] }

/-- A state in which the architecture of `image.xml` is loaded. -/
def loadedState : ConsoleState SampleArch :=
  { sampleState with
    conf := some { capa := "xml", filename := "image.xml", target := "default",
                   steps := ["init", "readLoaderSymbols"] } }

/-- The loaded state after an earlier `save state.xml`: the name is
remembered in `savefile`. -/
def rememberedState : ConsoleState SampleArch :=
  { loadedState with savefile := "state.xml" }

/-- A history in which file names are supplied: `save a.xml`, which succeeds,
then `restore missing.xml`, which fails because the document cannot be
opened. -/
def namedHistory : List Command :=
  [Command.save "a.xml".data, Command.restore "missing.xml".data]

/-- The state the console reaches from `loadedState` through
`namedHistory`. -/
def afterNamedHistory : ConsoleState SampleArch :=
  (Command.execute sampleEnv
    (Command.execute sampleEnv loadedState (Command.save "a.xml".data)).state
    (Command.restore "missing.xml".data)).state

/-- A history that leaves a name which cannot be opened for writing:
`save /nodir/out.xml`, which fails on the open. -/
def blockedHistory : List Command :=
  [Command.save "/nodir/out.xml".data]

/-- The state the console reaches from `loadedState` through
`blockedHistory`. -/
def afterBlockedHistory : ConsoleState SampleArch :=
  (Command.execute sampleEnv loadedState (Command.save "/nodir/out.xml".data)).state

/-- A history in which no file name is supplied: a `load` that is rejected,
an `addpath`, and a `restore` without argument. -/
def namelessHistory : List Command :=
  [Command.load "image.bin".data, Command.addpath "/specs".data, Command.restore " ".data]

/-- The state the console reaches from `loadedState` through
`namelessHistory`. -/
def afterNamelessHistory : ConsoleState SampleArch :=
  (Command.execute sampleEnv
    (Command.execute sampleEnv
      (Command.execute sampleEnv loadedState (Command.load "image.bin".data)).state
      (Command.addpath "/specs".data)).state
    (Command.restore " ".data)).state

/-! ## Facts about the stream operations -/

theorem dropWhile_head_false (p : Char → Bool) (l : List Char) (c : Char) (r : List Char)
    (h : l.dropWhile p = c :: r) : p c = false := by
  induction l with
  | nil => simp at h
  | cons a t ih =>
    by_cases ha : p a = true
    · rw [List.dropWhile_cons_of_pos ha] at h
      exact ih h
    · rw [List.dropWhile_cons_of_neg ha] at h
      simp only [List.cons.injEq] at h
      rw [← h.1]
      simpa using ha

theorem dropWhile_all (p : Char → Bool) (l : List Char) (h : ∀ c ∈ l, p c = true) :
    l.dropWhile p = [] := by
  induction l with
  | nil => rfl
  | cons a t ih =>
    rw [List.dropWhile_cons_of_pos (h a (List.mem_cons_self a t))]
    exact ih (fun c hc => h c (List.mem_cons_of_mem a hc))

theorem dropWhile_append_stop (p : Char → Bool) (pre l : List Char)
    (hpre : ∀ c ∈ pre, p c = true) : (pre ++ l).dropWhile p = l.dropWhile p := by
  induction pre with
  | nil => rfl
  | cons a t ih =>
    rw [List.cons_append, List.dropWhile_cons_of_pos (hpre a (List.mem_cons_self a t))]
    exact ih (fun c hc => hpre c (List.mem_cons_of_mem a hc))

theorem takeWhile_append_stop (p : Char → Bool) (tok rest : List Char)
    (htok : ∀ c ∈ tok, p c = true) (hrest : ∀ c r, rest = c :: r → p c = false) :
    (tok ++ rest).takeWhile p = tok ∧ (tok ++ rest).dropWhile p = rest := by
  induction tok with
  | nil =>
    cases rest with
    | nil => simp
    | cons c r =>
      have hc := hrest c r rfl
      simp [List.takeWhile_cons, List.dropWhile_cons, hc]
  | cons a t ih =>
    have ha := htok a (List.mem_cons_self a t)
    have iht := ih (fun c hc => htok c (List.mem_cons_of_mem a hc))
    simp [List.takeWhile_cons, List.dropWhile_cons, ha, iht.1, iht.2]

/-- Extraction from a good stream whose buffer is whitespace, then a token,
then either nothing or something that starts with whitespace: the token is
read, `eofbit` is raised exactly when nothing follows the token. -/
theorem IStream.extract_token (s : IStream) (str : String) (pre tok rest : List Char)
    (hgood : s.good = true) (hbuf : s.buf = pre ++ tok ++ rest)
    (hpre : ∀ c ∈ pre, isspace c = true) (hne : tok ≠ [])
    (htok : ∀ c ∈ tok, isspace c = false)
    (hrest : ∀ c r, rest = c :: r → isspace c = true) :
    s.extract str =
      ({ buf := rest, eofbit := rest.isEmpty, failbit := false }, String.mk tok) := by
  obtain ⟨buf, e, f⟩ := s
  simp only [IStream.good, Bool.and_eq_true, Bool.not_eq_true'] at hgood
  obtain ⟨he, hf⟩ := hgood
  simp only at hbuf he hf
  subst hbuf he hf
  obtain ⟨a, t, rfl⟩ := List.exists_cons_of_ne_nil hne
  have ha : isspace a = false := htok a (List.mem_cons_self a t)
  have h1 : (pre ++ (a :: t) ++ rest).dropWhile isspace = (a :: t) ++ rest := by
    rw [List.append_assoc, dropWhile_append_stop isspace pre _ hpre]
    simp [List.dropWhile_cons, ha]
  have h2 := takeWhile_append_stop (fun c => !isspace c) (a :: t) rest
    (fun c hc => by simp [htok c hc]) (fun c r hr => by simp [hrest c r hr])
  simp only [List.cons_append] at h1 h2
  simp only [IStream.extract, IStream.sentry, IStream.good, List.cons_append, h1]
  simp [h2.1, h2.2, ha]

/-- Extraction when there is no token to read (the stream is not good, or
only whitespace is left): the string keeps its value and the stream ends up
with `failbit`; it is at end of file afterwards unless it was in a failed
state that was not end of file. -/
theorem IStream.extract_no_token (s : IStream) (str : String)
    (h : s.good = false ∨ ∀ c ∈ s.buf, isspace c = true) :
    (s.extract str).2 = str ∧ (s.extract str).1.failbit = true ∧
      ((s.extract str).1.eofbit = (s.eofbit || s.good)) := by
  by_cases hg : s.good = true
  · have hall : ∀ c ∈ s.buf, isspace c = true := by
      rcases h with h | h
      · rw [hg] at h; cases h
      · exact h
    have hd := dropWhile_all isspace s.buf hall
    simp [IStream.extract, IStream.sentry, hg, hd]
  · have hg2 : s.good = false := by simpa using hg
    simp [IStream.extract, IStream.sentry, hg2]

/-- On a fresh stream `s >> str` delivers the first token of the text, and
keeps `str` when the text has none. -/
theorem IStream.extract_ofText (args : List Char) (str : String) :
    ((IStream.ofText args).extract str).2 = (firstToken args).getD str := by
  simp only [IStream.extract, IStream.sentry, IStream.ofText, IStream.good, firstToken]
  cases hd : args.dropWhile isspace with
  | nil => simp
  | cons c r =>
    have hc := dropWhile_head_false isspace args c r hd
    simp [List.takeWhile_cons, hc]

/-! ## `load` -/

/-- C1: in every state in which an architecture is already present, and for
every argument stream, `IfcLoadFile::execute` throws the execution error
`Load image already present` and changes nothing: the state is the one
before (same architecture, nothing added to the trace of collaborator calls,
nothing printed) and the argument stream has not been read. -/
theorem load_already_present {Arch : Type} (env : Env Arch) (σ : ConsoleState Arch)
    (s : IStream) (h : σ.conf.isSome = true) :
    (IfcLoadFile.execute env σ s).outcome
        = Outcome.threw (Exn.IfaceExecutionError "Load image already present") ∧
      (IfcLoadFile.execute env σ s).state = σ ∧
      (IfcLoadFile.execute env σ s).stream = s := by
  obtain ⟨a, ha⟩ := Option.isSome_iff_exists.mp h
  simp [IfcLoadFile.execute, ha]

theorem load_already_present_witness :
    loadedState.conf.isSome = true ∧
      (IfcLoadFile.execute sampleEnv loadedState (IStream.ofText "x86 image.bin".data)).outcome
        = Outcome.threw (Exn.IfaceExecutionError "Load image already present") ∧
      (IfcLoadFile.execute sampleEnv loadedState (IStream.ofText "x86 image.bin".data)).state
        = loadedState ∧
      (IfcLoadFile.execute sampleEnv loadedState (IStream.ofText "x86 image.bin".data)).stream
        = IStream.ofText "x86 image.bin".data :=
  ⟨rfl, load_already_present sampleEnv loadedState (IStream.ofText "x86 image.bin".data) rfl⟩

/-- The shape of a load whose `init` fails with an `XmlError` or a
`LowlevelError`, stated for a state that differs from `σ` at most in what has
been printed and traced. -/
theorem load_rollback {Arch : Type} (env : Env Arch) (σ : ConsoleState Arch) (s : IStream)
    (capa : ArchitectureCapability Arch) (m : String)
    (hconf : σ.conf = none)
    (hcapa : findCapability env (IfcLoadFile.readArgs s).2.1 = some capa)
    (hinit : (env.init
        (capa.buildArchitecture (IfcLoadFile.readArgs s).2.1 (IfcLoadFile.readArgs s).2.2)
        (IfcLoadFile.experimentalRules env σ.experimental_file).store).thrown
          = some (Exn.XmlError m) ∨
      (env.init
        (capa.buildArchitecture (IfcLoadFile.readArgs s).2.1 (IfcLoadFile.readArgs s).2.2)
        (IfcLoadFile.experimentalRules env σ.experimental_file).store).thrown
          = some (Exn.LowlevelError m)) :
    (IfcLoadFile.execute env σ s).outcome = Outcome.returned ∧
      (IfcLoadFile.execute env σ s).state.conf = none ∧
      (IfcLoadFile.execute env σ s).state.experimental_file = σ.experimental_file ∧
      (IfcLoadFile.execute env σ s).state.optr = σ.optr ++
        ((IfcLoadFile.experimentalRules env σ.experimental_file).printed ++
          (env.init
            (capa.buildArchitecture (IfcLoadFile.readArgs s).2.1 (IfcLoadFile.readArgs s).2.2)
            (IfcLoadFile.experimentalRules env σ.experimental_file).store).printed ++
          [m, "Could not create architecture"]) := by
  rcases hinit with hinit | hinit <;>
    simp [IfcLoadFile.execute, IfcLoadFile.rollback, ConsoleState.emit, ConsoleState.log,
      hconf, hcapa, hinit]

/-- C2: in a state without architecture, when the capability of the file name
is found and the `init` step of the architecture it builds fails with an
`XmlError` or a `LowlevelError` of text `m`, `IfcLoadFile::execute` returns
normally, `conf` is null afterwards and the sink has received (after whatever
the rules block and `init` printed) the line `m` followed by
`Could not create architecture`.  Running the same load again from the state
reached gives the same: normal return, null `conf`, the same lines again. -/
theorem load_init_failure_is_soft {Arch : Type} (env : Env Arch) (σ : ConsoleState Arch)
    (s : IStream) (capa : ArchitectureCapability Arch) (m : String)
    (hconf : σ.conf = none)
    (hcapa : findCapability env (IfcLoadFile.readArgs s).2.1 = some capa)
    (hinit : (env.init
        (capa.buildArchitecture (IfcLoadFile.readArgs s).2.1 (IfcLoadFile.readArgs s).2.2)
        (IfcLoadFile.experimentalRules env σ.experimental_file).store).thrown
          = some (Exn.XmlError m) ∨
      (env.init
        (capa.buildArchitecture (IfcLoadFile.readArgs s).2.1 (IfcLoadFile.readArgs s).2.2)
        (IfcLoadFile.experimentalRules env σ.experimental_file).store).thrown
          = some (Exn.LowlevelError m)) :
    (IfcLoadFile.execute env σ s).outcome = Outcome.returned ∧
      (IfcLoadFile.execute env σ s).state.conf = none ∧
      (IfcLoadFile.execute env σ s).state.optr = σ.optr ++
        ((IfcLoadFile.experimentalRules env σ.experimental_file).printed ++
          (env.init
            (capa.buildArchitecture (IfcLoadFile.readArgs s).2.1 (IfcLoadFile.readArgs s).2.2)
            (IfcLoadFile.experimentalRules env σ.experimental_file).store).printed ++
          [m, "Could not create architecture"]) ∧
      (IfcLoadFile.execute env (IfcLoadFile.execute env σ s).state s).outcome
        = Outcome.returned ∧
      (IfcLoadFile.execute env (IfcLoadFile.execute env σ s).state s).state.conf = none ∧
      (IfcLoadFile.execute env (IfcLoadFile.execute env σ s).state s).state.optr
        = (IfcLoadFile.execute env σ s).state.optr ++
          ((IfcLoadFile.experimentalRules env σ.experimental_file).printed ++
            (env.init
              (capa.buildArchitecture (IfcLoadFile.readArgs s).2.1
                (IfcLoadFile.readArgs s).2.2)
              (IfcLoadFile.experimentalRules env σ.experimental_file).store).printed ++
            [m, "Could not create architecture"]) := by
  have h1 := load_rollback env σ s capa m hconf hcapa hinit
  obtain ⟨ho, hc, hx, hp⟩ := h1
  have h2 := load_rollback env (IfcLoadFile.execute env σ s).state s capa m hc hcapa
    (by rw [hx]; exact hinit)
  rw [hx] at h2
  exact ⟨ho, hc, hp, h2.1, h2.2.1, h2.2.2.2⟩

theorem load_init_failure_is_soft_witness :
    (IfcLoadFile.execute sampleEnv sampleState (IStream.ofText "broken.xml".data)).outcome
        = Outcome.returned ∧
      (IfcLoadFile.execute sampleEnv sampleState
        (IStream.ofText "broken.xml".data)).state.conf = none ∧
      (IfcLoadFile.execute sampleEnv sampleState
        (IStream.ofText "broken.xml".data)).state.optr
          = ["Unexpected end of document", "Could not create architecture"] ∧
      (IfcLoadFile.execute sampleEnv
        (IfcLoadFile.execute sampleEnv sampleState (IStream.ofText "broken.xml".data)).state
        (IStream.ofText "broken.xml".data)).outcome = Outcome.returned ∧
      (IfcLoadFile.execute sampleEnv
        (IfcLoadFile.execute sampleEnv sampleState (IStream.ofText "broken.xml".data)).state
        (IStream.ofText "broken.xml".data)).state.conf = none ∧
      (IfcLoadFile.execute sampleEnv
        (IfcLoadFile.execute sampleEnv sampleState (IStream.ofText "broken.xml".data)).state
        (IStream.ofText "broken.xml".data)).state.optr
          = ["Unexpected end of document", "Could not create architecture",
             "Unexpected end of document", "Could not create architecture"] :=
  load_init_failure_is_soft sampleEnv sampleState (IStream.ofText "broken.xml".data)
    { name := "xml",
      isFileMatch := fun f => f == "image.xml" || f == "broken.xml",
      isXmlMatch := fun d => d.root.name == "xml_savefile",
      buildArchitecture := fun f t => { capa := "xml", filename := f, target := t, steps := [] } }
    "Unexpected end of document" rfl rfl (Or.inl rfl)

/-- A load in a state without architecture whose capability is found, whose
`init` does not throw and, for the capability `xml`, whose loader symbols are
read without exception: the command returns with an architecture installed. -/
theorem load_success {Arch : Type} (env : Env Arch) (σ : ConsoleState Arch) (s : IStream)
    (capa : ArchitectureCapability Arch)
    (hconf : σ.conf = none)
    (hcapa : findCapability env (IfcLoadFile.readArgs s).2.1 = some capa)
    (hinit : (env.init
        (capa.buildArchitecture (IfcLoadFile.readArgs s).2.1 (IfcLoadFile.readArgs s).2.2)
        (IfcLoadFile.experimentalRules env σ.experimental_file).store).thrown = none)
    (hsym : capa.name = "xml" → (env.readLoaderSymbols
        (env.init
          (capa.buildArchitecture (IfcLoadFile.readArgs s).2.1 (IfcLoadFile.readArgs s).2.2)
          (IfcLoadFile.experimentalRules env σ.experimental_file).store).arch "::").thrown
          = none) :
    (IfcLoadFile.execute env σ s).outcome = Outcome.returned ∧
      (IfcLoadFile.execute env σ s).state.conf.isSome = true := by
  by_cases hx : capa.name = "xml"
  · have h := hsym hx
    simp [IfcLoadFile.execute, IfcLoadFile.afterInit, IfcLoadFile.finish, ConsoleState.emit,
      ConsoleState.emitAll, ConsoleState.log, hconf, hcapa, hinit, hx, h]
  · simp [IfcLoadFile.execute, IfcLoadFile.afterInit, IfcLoadFile.finish, ConsoleState.emit,
      ConsoleState.log, hconf, hcapa, hinit, hx]

/-- C7: in a state without architecture, when no registered capability
recognises the file name `f` read from the arguments, `IfcLoadFile::execute`
throws the execution error `Unable to recognize imagefile ` followed by `f`;
the only collaborator call made is the capability lookup (no construction),
and `conf` is still null.  Hence a following load (any argument stream `s2`)
of a file that is recognised and initialises without exception is not
rejected: it returns normally with a non-null `conf`. -/
theorem load_unrecognized {Arch : Type} (env : Env Arch) (σ : ConsoleState Arch)
    (s : IStream) (hconf : σ.conf = none)
    (hnone : ∀ c ∈ env.thelist, c.isFileMatch (IfcLoadFile.readArgs s).2.1 = false) :
    (IfcLoadFile.execute env σ s).outcome
        = Outcome.threw (Exn.IfaceExecutionError
            ("Unable to recognize imagefile " ++ (IfcLoadFile.readArgs s).2.1)) ∧
      (IfcLoadFile.execute env σ s).state.conf = none ∧
      (IfcLoadFile.execute env σ s).state.trace
        = σ.trace ++ [Event.findCapability (IfcLoadFile.readArgs s).2.1] ∧
      ∀ (s2 : IStream) (capa : ArchitectureCapability Arch),
        findCapability env (IfcLoadFile.readArgs s2).2.1 = some capa →
        (env.init
          (capa.buildArchitecture (IfcLoadFile.readArgs s2).2.1 (IfcLoadFile.readArgs s2).2.2)
          (IfcLoadFile.experimentalRules env σ.experimental_file).store).thrown = none →
        (capa.name = "xml" → (env.readLoaderSymbols
          (env.init
            (capa.buildArchitecture (IfcLoadFile.readArgs s2).2.1
              (IfcLoadFile.readArgs s2).2.2)
            (IfcLoadFile.experimentalRules env σ.experimental_file).store).arch "::").thrown
            = none) →
        (IfcLoadFile.execute env (IfcLoadFile.execute env σ s).state s2).outcome
            = Outcome.returned ∧
          (IfcLoadFile.execute env (IfcLoadFile.execute env σ s).state s2).outcome
            ≠ Outcome.threw (Exn.IfaceExecutionError "Load image already present") ∧
          (IfcLoadFile.execute env (IfcLoadFile.execute env σ s).state s2).state.conf.isSome
            = true := by
  have hfind : findCapability env (IfcLoadFile.readArgs s).2.1 = none := by
    unfold findCapability
    rw [List.find?_eq_none]
    intro c hc
    simp [hnone c hc]
  have hstate : (IfcLoadFile.execute env σ s).state
      = σ.log (Event.findCapability (IfcLoadFile.readArgs s).2.1) := by
    simp [IfcLoadFile.execute, hconf, hfind]
  refine ⟨?_, ?_, ?_, ?_⟩
  · simp [IfcLoadFile.execute, hconf, hfind]
  · rw [hstate]; simpa [ConsoleState.log] using hconf
  · rw [hstate]; simp [ConsoleState.log]
  · intro s2 capa hcapa hinit hsym
    have hc2 : (IfcLoadFile.execute env σ s).state.conf = none := by
      rw [hstate]; simpa [ConsoleState.log] using hconf
    have hx2 : (IfcLoadFile.execute env σ s).state.experimental_file
        = σ.experimental_file := by
      rw [hstate]; simp [ConsoleState.log]
    have h := load_success env (IfcLoadFile.execute env σ s).state s2 capa hc2 hcapa
      (by rw [hx2]; exact hinit) (by rw [hx2]; exact hsym)
    refine ⟨h.1, ?_, h.2⟩
    rw [h.1]
    simp

theorem load_unrecognized_witness :
    (IfcLoadFile.execute sampleEnv sampleState (IStream.ofText "notes.txt".data)).outcome
        = Outcome.threw (Exn.IfaceExecutionError "Unable to recognize imagefile notes.txt") ∧
      (IfcLoadFile.execute sampleEnv sampleState
        (IStream.ofText "notes.txt".data)).state.conf = none ∧
      (IfcLoadFile.execute sampleEnv sampleState
        (IStream.ofText "notes.txt".data)).state.trace = [Event.findCapability "notes.txt"] ∧
      (IfcLoadFile.execute sampleEnv
        (IfcLoadFile.execute sampleEnv sampleState (IStream.ofText "notes.txt".data)).state
        (IStream.ofText "image.bin".data)).outcome = Outcome.returned ∧
      (IfcLoadFile.execute sampleEnv
        (IfcLoadFile.execute sampleEnv sampleState (IStream.ofText "notes.txt".data)).state
        (IStream.ofText "image.bin".data)).state.conf.isSome = true :=
  have h := load_unrecognized sampleEnv sampleState (IStream.ofText "notes.txt".data) rfl
    (by decide)
  have h2 := h.2.2.2 (IStream.ofText "image.bin".data)
    { name := "raw",
      isFileMatch := fun f => f == "image.bin",
      isXmlMatch := fun d => d.root.name == "raw_savefile",
      buildArchitecture := fun f t => { capa := "raw", filename := f, target := t, steps := [] } }
    rfl rfl (fun _ => rfl)
  ⟨h.1, h.2.1, h.2.2.1, h2.1, h2.2.2⟩

/-! ## The arguments of `load` -/

/-- Two tokens `t` and `f`, whatever whitespace surrounds them: `f` is the
file name and `t` the target. -/
theorem readArgs_two_tokens (pre t sep f post : List Char)
    (hpre : ∀ c ∈ pre, isspace c = true)
    (ht : t ≠ []) (ht2 : ∀ c ∈ t, isspace c = false)
    (hsep : sep ≠ []) (hsep2 : ∀ c ∈ sep, isspace c = true)
    (hf : f ≠ []) (hf2 : ∀ c ∈ f, isspace c = false)
    (hpost : ∀ c ∈ post, isspace c = true) :
    (IfcLoadFile.readArgs (IStream.ofText (pre ++ t ++ (sep ++ f ++ post)))).2
      = (String.mk f, String.mk t) := by
  obtain ⟨a, sep1, rfl⟩ := List.exists_cons_of_ne_nil hsep
  have h1 := IStream.extract_token (IStream.ofText (pre ++ t ++ (a :: sep1 ++ f ++ post))) ""
    pre t (a :: sep1 ++ f ++ post) rfl rfl hpre ht ht2
    (fun c r hr => by
      simp only [List.cons_append, List.cons.injEq] at hr
      rw [← hr.1]
      exact hsep2 a (List.mem_cons_self a sep1))
  have h2 := IStream.extract_token
    { buf := a :: sep1 ++ f ++ post, eofbit := false, failbit := false } (String.mk t)
    (a :: sep1) f post rfl rfl hsep2 hf hf2
    (fun c r hr => hpost c (by rw [hr]; exact List.mem_cons_self c r))
  simp only [IfcLoadFile.readArgs, h1, IStream.eof]
  simp only [List.cons_append, List.isEmpty_cons, Bool.not_false, if_true]
  simp only [List.cons_append] at h2
  rw [h2]

/-- One token `f` that ends the text: `f` is the file name and the target is
`default`. -/
theorem readArgs_one_token (pre f : List Char)
    (hpre : ∀ c ∈ pre, isspace c = true)
    (hf : f ≠ []) (hf2 : ∀ c ∈ f, isspace c = false) :
    (IfcLoadFile.readArgs (IStream.ofText (pre ++ f))).2 = (String.mk f, "default") := by
  have h1 := IStream.extract_token (IStream.ofText (pre ++ f ++ [])) ""
    pre f [] rfl rfl hpre hf hf2 (fun c r hr => by cases hr)
  rw [List.append_nil] at h1
  simp [IfcLoadFile.readArgs, h1, IStream.eof]

/-- One token `f` followed by whitespace: the stream is not at end of file
after the token, so the token becomes the target, and the second extraction
finds nothing and leaves `filename` as it was.  File name and target are
both `f`. -/
theorem readArgs_trailing_whitespace (pre f post : List Char)
    (hpre : ∀ c ∈ pre, isspace c = true)
    (hf : f ≠ []) (hf2 : ∀ c ∈ f, isspace c = false)
    (hpost : post ≠ []) (hpost2 : ∀ c ∈ post, isspace c = true) :
    (IfcLoadFile.readArgs (IStream.ofText (pre ++ f ++ post))).2
      = (String.mk f, String.mk f) := by
  obtain ⟨a, post1, rfl⟩ := List.exists_cons_of_ne_nil hpost
  have h1 := IStream.extract_token (IStream.ofText (pre ++ f ++ a :: post1)) ""
    pre f (a :: post1) rfl rfl hpre hf hf2
    (fun c r hr => by
      simp only [List.cons.injEq] at hr
      rw [← hr.1]
      exact hpost2 a (List.mem_cons_self a post1))
  have h2 := IStream.extract_no_token
    { buf := a :: post1, eofbit := false, failbit := false } (String.mk f) (Or.inr hpost2)
  simp only [IfcLoadFile.readArgs, h1, IStream.eof]
  simp only [List.isEmpty_cons, Bool.not_false, if_true]
  rw [h2.1]

/-- C5: evaluation of `IfcLoadFile::execute` on the argument text
`image.xml` followed by one blank, in a state without architecture.  The
text holds exactly one token, yet the target handed to the construction is
the token itself, `image.xml`, not `default`: the capability is looked up by
`image.xml` and `buildArchitecture` is called with file name `image.xml` and
target `image.xml`. -/
theorem load_trailing_blank_target :
    (IfcLoadFile.readArgs (IStream.ofText "image.xml ".data)).2
        = ("image.xml", "image.xml") ∧
      (IfcLoadFile.execute sampleEnv sampleState (IStream.ofText "image.xml ".data)).state.trace
        = [Event.findCapability "image.xml",
           Event.buildArchitecture "xml" "image.xml" "image.xml",
           Event.init, Event.readLoaderSymbols "::"] ∧
      (IfcLoadFile.execute sampleEnv sampleState (IStream.ofText "image.xml ".data)).state.conf
        = some { capa := "xml", filename := "image.xml", target := "image.xml",
                 steps := ["init", "readLoaderSymbols"] } ∧
      (IfcLoadFile.execute sampleEnv sampleState (IStream.ofText "image.xml".data)).state.conf
        = some { capa := "xml", filename := "image.xml", target := "default",
                 steps := ["init", "readLoaderSymbols"] } := by
  refine ⟨?_, ?_, ?_, ?_⟩ <;> rfl

/-! ## `save` -/

/-- The name `save` works with when the stream holds no token: the remembered
one.  The state is left as it was. -/
theorem save_no_token {Arch : Type} (σ : ConsoleState Arch) (s : IStream)
    (hno : s.good = false ∨ ∀ c ∈ s.buf, isspace c = true) :
    (if !s.ws.eof then s.ws.extract σ.savefile else (s.ws, σ.savefile)).2 = σ.savefile := by
  obtain ⟨buf, e, f⟩ := s
  cases e <;> cases f
  · have hall : ∀ c ∈ buf, isspace c = true := by
      rcases hno with h | h
      · simp [IStream.good] at h
      · exact h
    have hd := dropWhile_all isspace buf hall
    simp [IStream.ws, IStream.sentry, IStream.good, IStream.eof, hd]
  · simp [IStream.ws, IStream.sentry, IStream.good, IStream.eof, IStream.extract]
  · simp [IStream.ws, IStream.sentry, IStream.good, IStream.eof]
  · simp [IStream.ws, IStream.sentry, IStream.good, IStream.eof]

/-- Without architecture `save` never ends in an error about the missing
architecture: it stops on the missing name, or on the file that cannot be
opened, or it reaches `dcp->conf->saveXml(fs)` with a null `conf`. -/
theorem save_without_architecture {Arch : Type} (env : Env Arch) (σ : ConsoleState Arch)
    (s : IStream) (hconf : σ.conf = none) :
    (IfcSave.execute env σ s).outcome
        = Outcome.threw (Exn.IfaceParseError "Missing savefile name") ∨
      (IfcSave.execute env σ s).outcome
        = Outcome.threw (Exn.IfaceExecutionError
            ("Unable to open file: " ++ (IfcSave.execute env σ s).state.savefile)) ∨
      (IfcSave.execute env σ s).outcome = Outcome.nullDeref := by
  unfold IfcSave.execute
  simp only [hconf]
  generalize (if (!s.ws.eof) = true then s.ws.extract σ.savefile else (s.ws, σ.savefile)) = r
  by_cases h1 : r.2.length = 0
  · left; simp [h1]
  · by_cases h2 : env.fsOpen r.2 = true
    · right; right; simp [h1, h2]
    · right; left; simp [h1, h2, ConsoleState.log]

/-- C3: evaluation of `IfcSave::execute` in the state without architecture.
With the argument `out.xml`, a file that can be opened, the command opens
the file and reaches `dcp->conf->saveXml(fs)` with a null `conf`: a null
dereference, no error is thrown.  With no argument it throws the parse error
`Missing savefile name`, and with a file that cannot be opened the execution
error `Unable to open file: `; none of the three is an error about the missing
architecture. -/
theorem save_without_architecture_null_deref :
    sampleState.conf = none ∧
      (IfcSave.execute sampleEnv sampleState (IStream.ofText "out.xml".data)).outcome
        = Outcome.nullDeref ∧
      (IfcSave.execute sampleEnv sampleState (IStream.ofText "out.xml".data)).state.trace
        = [Event.fsOpen "out.xml"] ∧
      (IfcSave.execute sampleEnv sampleState (IStream.ofText [])).outcome
        = Outcome.threw (Exn.IfaceParseError "Missing savefile name") ∧
      (IfcSave.execute sampleEnv sampleState (IStream.ofText "/nodir/out.xml".data)).outcome
        = Outcome.threw (Exn.IfaceExecutionError "Unable to open file: /nodir/out.xml") := by
  refine ⟨?_, ?_, ?_, ?_, ?_⟩ <;> rfl

/-! ## `restore` -/

/-- The failure of the document: the `XmlError` leaves the command, after the
name has been stored and before anything else is touched. -/
theorem restore_document_failure {Arch : Type} (env : Env Arch) (σ : ConsoleState Arch)
    (s : IStream) (m : String)
    (hname : (s.extract σ.savefile).2.length ≠ 0)
    (hdoc : env.openDocument (s.extract σ.savefile).2 = Except.error m) :
    (IfcRestore.execute env σ s).outcome = Outcome.threw (Exn.XmlError m) ∧
      (IfcRestore.execute env σ s).state.conf = σ.conf ∧
      (IfcRestore.execute env σ s).state.savefile = (s.extract σ.savefile).2 ∧
      (IfcRestore.execute env σ s).state.trace
        = σ.trace ++ [Event.openDocument (s.extract σ.savefile).2] := by
  simp [IfcRestore.execute, ConsoleState.log, hname, hdoc]

/-- The document parses and no capability matches it: the old architecture
has been cleared when the execution error is thrown. -/
theorem restore_no_capability {Arch : Type} (env : Env Arch) (σ : ConsoleState Arch)
    (s : IStream) (doc : Document)
    (hname : (s.extract σ.savefile).2.length ≠ 0)
    (hdoc : env.openDocument (s.extract σ.savefile).2 = Except.ok doc)
    (hcapa : findCapabilityDoc env doc = none) :
    (IfcRestore.execute env σ s).outcome
        = Outcome.threw (Exn.IfaceExecutionError "Could not find savefile tag") ∧
      (IfcRestore.execute env σ s).state.conf = none ∧
      (IfcRestore.execute env σ s).state.savefile = (s.extract σ.savefile).2 ∧
      (IfcRestore.execute env σ s).state.trace
        = σ.trace ++ [Event.openDocument (s.extract σ.savefile).2,
            Event.clearArchitecture, Event.findCapabilityDoc doc] := by
  simp [IfcRestore.execute, clearArchitecture, ConsoleState.log, hname, hdoc, hcapa]

/-- The restore step fails with a `LowlevelError` or an `XmlError` of text
`m`: the execution error with the same text is thrown, and `conf` still
points at the architecture on which `restoreXml` failed. -/
theorem restore_step_failure {Arch : Type} (env : Env Arch) (σ : ConsoleState Arch)
    (s : IStream) (doc : Document) (capa : ArchitectureCapability Arch) (m : String)
    (hname : (s.extract σ.savefile).2.length ≠ 0)
    (hdoc : env.openDocument (s.extract σ.savefile).2 = Except.ok doc)
    (hcapa : findCapabilityDoc env doc = some capa)
    (hfail : (env.restoreXml (capa.buildArchitecture "" "")
        ((DocumentStorage.empty.keep doc).registerTag doc.root)).thrown
          = some (Exn.LowlevelError m) ∨
      (env.restoreXml (capa.buildArchitecture "" "")
        ((DocumentStorage.empty.keep doc).registerTag doc.root)).thrown
          = some (Exn.XmlError m)) :
    (IfcRestore.execute env σ s).outcome = Outcome.threw (Exn.IfaceExecutionError m) ∧
      (IfcRestore.execute env σ s).state.conf
        = some (env.restoreXml (capa.buildArchitecture "" "")
            ((DocumentStorage.empty.keep doc).registerTag doc.root)).arch := by
  rcases hfail with hfail | hfail <;>
    simp [IfcRestore.execute, IfcRestore.build, clearArchitecture, ConsoleState.log,
      ConsoleState.emitAll, hname, hdoc, hcapa, hfail]

/-- C4: evaluation of `IfcRestore::execute` on `truncated.xml`, a document
that parses and whose root matches the capability `xml`, but on which
`restoreXml` throws a `LowlevelError`.  The command throws the execution
error with the text of that error, and `conf` is not null afterwards: it is
the architecture just built, with its failed `restoreXml`; this holds from
the state without architecture and from the loaded state alike. -/
theorem restore_failure_leaves_architecture :
    (IfcRestore.execute sampleEnv sampleState (IStream.ofText "truncated.xml".data)).outcome
        = Outcome.threw (Exn.IfaceExecutionError "Missing save state") ∧
      (IfcRestore.execute sampleEnv sampleState
        (IStream.ofText "truncated.xml".data)).state.conf
        = some { capa := "xml", filename := "", target := "", steps := ["restoreXml"] } ∧
      (IfcRestore.execute sampleEnv loadedState
        (IStream.ofText "truncated.xml".data)).state.conf
        = some { capa := "xml", filename := "", target := "", steps := ["restoreXml"] } ∧
      (IfcRestore.execute sampleEnv sampleState
        (IStream.ofText "truncated.xml".data)).state.conf ≠ none := by
  refine ⟨?_, ?_, ?_, ?_⟩
  · rfl
  · rfl
  · rfl
  · decide

/-- C10: for every state and every file name token `f` at the head of the
argument stream (after optional whitespace), `IfcRestore::execute` clears the
architecture only after the document has been opened and parsed.  If
`openDocument` fails, its `XmlError` leaves the command, `conf` is what it was
before, the remembered name is already `f`, and the only collaborator call is
the `openDocument`.  If the document parses and no capability matches it, the
command throws the execution error `Could not find savefile tag` and `conf` is
null, whatever it was before; the calls are `openDocument`, then
`clearArchitecture`, then the capability lookup. -/
theorem restore_clears_after_parse {Arch : Type} (env : Env Arch) (σ : ConsoleState Arch)
    (s : IStream) (pre f rest : List Char)
    (hgood : s.good = true) (hbuf : s.buf = pre ++ f ++ rest)
    (hpre : ∀ c ∈ pre, isspace c = true)
    (hf : f ≠ []) (hf2 : ∀ c ∈ f, isspace c = false)
    (hrest : ∀ c r, rest = c :: r → isspace c = true) :
    (∀ m, env.openDocument (String.mk f) = Except.error m →
      (IfcRestore.execute env σ s).outcome = Outcome.threw (Exn.XmlError m) ∧
        (IfcRestore.execute env σ s).state.conf = σ.conf ∧
        (IfcRestore.execute env σ s).state.savefile = String.mk f ∧
        (IfcRestore.execute env σ s).state.trace
          = σ.trace ++ [Event.openDocument (String.mk f)]) ∧
    (∀ doc, env.openDocument (String.mk f) = Except.ok doc →
      findCapabilityDoc env doc = none →
      (IfcRestore.execute env σ s).outcome
          = Outcome.threw (Exn.IfaceExecutionError "Could not find savefile tag") ∧
        (IfcRestore.execute env σ s).state.conf = none ∧
        (IfcRestore.execute env σ s).state.savefile = String.mk f ∧
        (IfcRestore.execute env σ s).state.trace
          = σ.trace ++ [Event.openDocument (String.mk f),
              Event.clearArchitecture, Event.findCapabilityDoc doc]) := by
  have hx := IStream.extract_token s σ.savefile pre f rest hgood hbuf hpre hf hf2 hrest
  have hname : (s.extract σ.savefile).2 = String.mk f := by rw [hx]
  have hlen : (s.extract σ.savefile).2.length ≠ 0 := by
    rw [hname]
    simpa using hf
  constructor
  · intro m hm
    have h := restore_document_failure env σ s m hlen (by rw [hname]; exact hm)
    rw [hname] at h
    exact h
  · intro doc hdoc hcapa
    have h := restore_no_capability env σ s doc hlen (by rw [hname]; exact hdoc) hcapa
    rw [hname] at h
    exact h

theorem restore_clears_after_parse_witness :
    ((IfcRestore.execute sampleEnv loadedState (IStream.ofText " missing.xml ".data)).outcome
        = Outcome.threw (Exn.XmlError "Unable to open xml document missing.xml") ∧
      (IfcRestore.execute sampleEnv loadedState
        (IStream.ofText " missing.xml ".data)).state.conf = loadedState.conf ∧
      (IfcRestore.execute sampleEnv loadedState
        (IStream.ofText " missing.xml ".data)).state.savefile = "missing.xml" ∧
      (IfcRestore.execute sampleEnv loadedState
        (IStream.ofText " missing.xml ".data)).state.trace
          = [Event.openDocument "missing.xml"]) ∧
    ((IfcRestore.execute sampleEnv loadedState (IStream.ofText "notes.xml".data)).outcome
        = Outcome.threw (Exn.IfaceExecutionError "Could not find savefile tag") ∧
      (IfcRestore.execute sampleEnv loadedState
        (IStream.ofText "notes.xml".data)).state.conf = none ∧
      (IfcRestore.execute sampleEnv loadedState
        (IStream.ofText "notes.xml".data)).state.savefile = "notes.xml" ∧
      (IfcRestore.execute sampleEnv loadedState
        (IStream.ofText "notes.xml".data)).state.trace
          = [Event.openDocument "notes.xml", Event.clearArchitecture,
             Event.findCapabilityDoc { root := { name := "notes", content := "" } }]) :=
  ⟨(restore_clears_after_parse sampleEnv loadedState (IStream.ofText " missing.xml ".data)
      " ".data "missing.xml".data " ".data rfl rfl (by decide) (by decide) (by decide)
      (by intro c r hr; cases hr; decide)).1
      "Unable to open xml document missing.xml" rfl,
   (restore_clears_after_parse sampleEnv loadedState (IStream.ofText "notes.xml".data)
      [] "notes.xml".data [] rfl rfl (by decide) (by decide) (by decide)
      (by intro c r hr; cases hr)).2
      { root := { name := "notes", content := "" } } rfl rfl⟩

/-! ## Missing arguments and the kinds of the errors -/

theorem length_eq_zero_iff (t : String) : t.length = 0 ↔ t = "" := by
  obtain ⟨l⟩ := t
  constructor
  · intro h
    have hl : l = [] := List.length_eq_zero.mp h
    rw [hl]
  · intro h
    rw [h]
    rfl

/-- After `save` the remembered name is the name the command worked with. -/
theorem save_savefile {Arch : Type} (env : Env Arch) (σ : ConsoleState Arch) (s : IStream) :
    (IfcSave.execute env σ s).state.savefile
      = (if !s.ws.eof then s.ws.extract σ.savefile else (s.ws, σ.savefile)).2 := by
  simp only [IfcSave.execute]
  generalize (if (!s.ws.eof) = true then s.ws.extract σ.savefile else (s.ws, σ.savefile)) = r
  by_cases h1 : r.2.length = 0
  · simp [h1]
  · by_cases h2 : env.fsOpen r.2 = true
    · cases hc : σ.conf with
      | none => simp [h1, h2, ConsoleState.log]
      | some a => cases hw : (env.saveXml a).2 <;> simp [h1, h2, hw, ConsoleState.log]
    · simp [h1, h2, ConsoleState.log]

/-- A `save` that has a name but cannot open the file throws the execution
error `Unable to open file: ` followed by the name. -/
theorem save_open_failure {Arch : Type} (env : Env Arch) (σ : ConsoleState Arch) (s : IStream)
    (hname : (IfcSave.execute env σ s).state.savefile.length ≠ 0)
    (hopen : env.fsOpen (IfcSave.execute env σ s).state.savefile = false) :
    (IfcSave.execute env σ s).outcome
      = Outcome.threw (Exn.IfaceExecutionError
          ("Unable to open file: " ++ (IfcSave.execute env σ s).state.savefile)) := by
  rw [save_savefile] at hname hopen ⊢
  simp only [IfcSave.execute]
  generalize (if (!s.ws.eof) = true then s.ws.extract σ.savefile else (s.ws, σ.savefile)) = r
    at hname hopen ⊢
  simp [hname, hopen]

/-- A `save` without token and with nothing remembered throws the parse error
`Missing savefile name` and leaves the state as it was. -/
theorem save_missing_name {Arch : Type} (env : Env Arch) (σ : ConsoleState Arch) (s : IStream)
    (hno : s.good = false ∨ ∀ c ∈ s.buf, isspace c = true) (hsave : σ.savefile = "") :
    (IfcSave.execute env σ s).outcome
        = Outcome.threw (Exn.IfaceParseError "Missing savefile name") ∧
      (IfcSave.execute env σ s).state = σ := by
  have h := save_no_token σ s hno
  simp only [IfcSave.execute]
  generalize (if (!s.ws.eof) = true then s.ws.extract σ.savefile else (s.ws, σ.savefile)) = r
    at h ⊢
  have hl : σ.savefile.length = 0 := by rw [hsave]; rfl
  simp [hl, h]

/-- A `restore` without token and with nothing remembered throws the parse
error `Missing file name` and leaves the state as it was. -/
theorem restore_missing_name {Arch : Type} (env : Env Arch) (σ : ConsoleState Arch)
    (s : IStream)
    (hno : s.good = false ∨ ∀ c ∈ s.buf, isspace c = true) (hsave : σ.savefile = "") :
    (IfcRestore.execute env σ s).outcome
        = Outcome.threw (Exn.IfaceParseError "Missing file name") ∧
      (IfcRestore.execute env σ s).state = σ := by
  have h := (IStream.extract_no_token s σ.savefile hno).1
  have hl : σ.savefile.length = 0 := by rw [hsave]; rfl
  simp [IfcRestore.execute, hl, h]

/-- A `restore` that has a name, from the stream or remembered, starts by
opening the document of that name. -/
theorem restore_opens_document {Arch : Type} (env : Env Arch) (σ : ConsoleState Arch)
    (s : IStream) (hname : (s.extract σ.savefile).2.length ≠ 0) :
    ∃ rest, (IfcRestore.execute env σ s).state.trace
      = σ.trace ++ Event.openDocument (s.extract σ.savefile).2 :: rest := by
  cases hdoc : env.openDocument (s.extract σ.savefile).2 with
  | error m => exact ⟨[], (restore_document_failure env σ s m hname hdoc).2.2.2⟩
  | ok doc =>
    cases hcapa : findCapabilityDoc env doc with
    | none => exact ⟨_, (restore_no_capability env σ s doc hname hdoc hcapa).2.2.2⟩
    | some capa =>
      refine ⟨[Event.clearArchitecture, Event.findCapabilityDoc doc,
        Event.buildArchitecture capa.name "" "", Event.restoreXml], ?_⟩
      simp only [IfcRestore.execute, IfcRestore.build, hdoc, hcapa]
      simp only [hname, beq_iff_eq, if_false]
      split <;>
        simp [ConsoleState.log, ConsoleState.emit, ConsoleState.emitAll, clearArchitecture]

/-- An `addpath` without token throws the parse error `Missing path name`
and leaves the state as it was. -/
theorem addpath_missing_path {Arch : Type} (env : Env Arch) (σ : ConsoleState Arch)
    (s : IStream) (hno : s.good = false ∨ ∀ c ∈ s.buf, isspace c = true) :
    (IfcAddpath.execute env σ s).outcome
        = Outcome.threw (Exn.IfaceParseError "Missing path name") ∧
      (IfcAddpath.execute env σ s).state = σ := by
  have h := (IStream.extract_no_token s "" hno).1
  have hl : (s.extract "").2.length = 0 := by rw [h]; rfl
  simp [IfcAddpath.execute, hl]

/-- C8, as the claim states it, fails in the state that remembers
`state.xml`: `IfcRestore::execute` on an empty argument text does not throw
the missing-file-name error.  It opens the document `state.xml`, clears the
loaded architecture, installs a new one and returns. -/
theorem restore_without_token_remembered_name :
    rememberedState.savefile = "state.xml" ∧
      (IfcRestore.execute sampleEnv rememberedState (IStream.ofText [])).outcome
        = Outcome.returned ∧
      (IfcRestore.execute sampleEnv rememberedState (IStream.ofText [])).outcome
        ≠ Outcome.threw (Exn.IfaceParseError "Missing file name") ∧
      (IfcRestore.execute sampleEnv rememberedState (IStream.ofText [])).state.trace
        = [Event.openDocument "state.xml", Event.clearArchitecture,
           Event.findCapabilityDoc { root := { name := "xml_savefile", content := "complete" } },
           Event.buildArchitecture "xml" "" "", Event.restoreXml] ∧
      (IfcRestore.execute sampleEnv rememberedState (IStream.ofText [])).state.conf
        = some { capa := "xml", filename := "", target := "", steps := ["restoreXml"] } ∧
      (IfcRestore.execute sampleEnv rememberedState (IStream.ofText [])).state.conf
        ≠ rememberedState.conf := by
  refine ⟨?_, ?_, ?_, ?_, ?_, ?_⟩
  · rfl
  · rfl
  · decide
  · rfl
  · rfl
  · decide

/-- C8 (amended): `IfcRestore::execute` on a stream that holds no token (the
stream is not good, or only whitespace is left).  When no file name is
remembered (`savefile` is empty) it throws the missing-file-name error and
the state is exactly the one before: no document opened, architecture neither
cleared nor replaced.  When a name is remembered the command does not stop
there: its first collaborator call opens the document of the remembered
name. -/
theorem restore_without_token {Arch : Type} (env : Env Arch) (σ : ConsoleState Arch)
    (s : IStream) (hno : s.good = false ∨ ∀ c ∈ s.buf, isspace c = true) :
    (σ.savefile = "" →
      (IfcRestore.execute env σ s).outcome
          = Outcome.threw (Exn.IfaceParseError "Missing file name") ∧
        (IfcRestore.execute env σ s).state = σ) ∧
    (σ.savefile ≠ "" →
      ∃ rest, (IfcRestore.execute env σ s).state.trace
        = σ.trace ++ Event.openDocument σ.savefile :: rest) := by
  constructor
  · intro hsave
    exact restore_missing_name env σ s hno hsave
  · intro hsave
    have h := (IStream.extract_no_token s σ.savefile hno).1
    have hl : (s.extract σ.savefile).2.length ≠ 0 := by
      rw [h]
      intro h0
      exact hsave ((length_eq_zero_iff σ.savefile).mp h0)
    have hopen := restore_opens_document env σ s hl
    rw [h] at hopen
    exact hopen

theorem restore_without_token_witness :
    ((IfcRestore.execute sampleEnv loadedState (IStream.ofText " ".data)).outcome
        = Outcome.threw (Exn.IfaceParseError "Missing file name") ∧
      (IfcRestore.execute sampleEnv loadedState (IStream.ofText " ".data)).state
        = loadedState) ∧
    (∃ rest, (IfcRestore.execute sampleEnv rememberedState (IStream.ofText " ".data)).state.trace
        = rememberedState.trace ++ Event.openDocument "state.xml" :: rest) :=
  ⟨(restore_without_token sampleEnv loadedState (IStream.ofText " ".data)
      (Or.inr (by decide))).1 rfl,
   (restore_without_token sampleEnv rememberedState (IStream.ofText " ".data)
      (Or.inr (by decide))).2 (by decide)⟩

/-- C9, as the claim states it, fails on the missing arguments: `addpath`
without path token, `save` without supplied or remembered name and `restore`
without supplied or remembered name each throw an `IfaceParseError`, which is
not an `IfaceExecutionError`. -/
theorem missing_argument_is_parse_error :
    (IfcAddpath.execute sampleEnv sampleState (IStream.ofText [])).outcome
        = Outcome.threw (Exn.IfaceParseError "Missing path name") ∧
      (IfcSave.execute sampleEnv loadedState (IStream.ofText [])).outcome
        = Outcome.threw (Exn.IfaceParseError "Missing savefile name") ∧
      (IfcRestore.execute sampleEnv sampleState (IStream.ofText [])).outcome
        = Outcome.threw (Exn.IfaceParseError "Missing file name") ∧
      (Exn.IfaceParseError "Missing path name").isExecutionError = false ∧
      (Exn.IfaceParseError "Missing savefile name").isExecutionError = false ∧
      (Exn.IfaceParseError "Missing file name").isExecutionError = false ∧
      (Exn.IfaceParseError "Missing path name").isParseError = true := by
  refine ⟨?_, ?_, ?_, ?_, ?_, ?_, ?_⟩ <;> rfl

/-- C9 (amended): the kinds of the failures the four commands raise
themselves.  The three missing-argument failures are parse errors: on a
stream without token, `addpath` throws `IfaceParseError`, and so do `save`
and `restore` when no name is remembered.  The other failures are execution
errors: the already-loaded and unrecognised-file failures of `load`, the
open failure of `save`, and for `restore` the document without matching
capability and the failure of the restore step, rethrown with its text. -/
theorem lifecycle_error_kinds {Arch : Type} (env : Env Arch) (σ : ConsoleState Arch)
    (s : IStream) :
    ((s.good = false ∨ ∀ c ∈ s.buf, isspace c = true) →
      (IfcAddpath.execute env σ s).outcome
          = Outcome.threw (Exn.IfaceParseError "Missing path name") ∧
        (σ.savefile = "" →
          (IfcSave.execute env σ s).outcome
              = Outcome.threw (Exn.IfaceParseError "Missing savefile name") ∧
            (IfcRestore.execute env σ s).outcome
              = Outcome.threw (Exn.IfaceParseError "Missing file name"))) ∧
    (σ.conf.isSome = true →
      (IfcLoadFile.execute env σ s).outcome
        = Outcome.threw (Exn.IfaceExecutionError "Load image already present")) ∧
    (σ.conf = none →
      (∀ c ∈ env.thelist, c.isFileMatch (IfcLoadFile.readArgs s).2.1 = false) →
      (IfcLoadFile.execute env σ s).outcome
        = Outcome.threw (Exn.IfaceExecutionError
            ("Unable to recognize imagefile " ++ (IfcLoadFile.readArgs s).2.1))) ∧
    ((IfcSave.execute env σ s).state.savefile.length ≠ 0 →
      env.fsOpen (IfcSave.execute env σ s).state.savefile = false →
      (IfcSave.execute env σ s).outcome
        = Outcome.threw (Exn.IfaceExecutionError
            ("Unable to open file: " ++ (IfcSave.execute env σ s).state.savefile))) ∧
    (∀ doc, (s.extract σ.savefile).2.length ≠ 0 →
      env.openDocument (s.extract σ.savefile).2 = Except.ok doc →
      findCapabilityDoc env doc = none →
      (IfcRestore.execute env σ s).outcome
        = Outcome.threw (Exn.IfaceExecutionError "Could not find savefile tag")) ∧
    (∀ doc capa m, (s.extract σ.savefile).2.length ≠ 0 →
      env.openDocument (s.extract σ.savefile).2 = Except.ok doc →
      findCapabilityDoc env doc = some capa →
      ((env.restoreXml (capa.buildArchitecture "" "")
          ((DocumentStorage.empty.keep doc).registerTag doc.root)).thrown
            = some (Exn.LowlevelError m) ∨
        (env.restoreXml (capa.buildArchitecture "" "")
          ((DocumentStorage.empty.keep doc).registerTag doc.root)).thrown
            = some (Exn.XmlError m)) →
      (IfcRestore.execute env σ s).outcome
        = Outcome.threw (Exn.IfaceExecutionError m)) := by
  refine ⟨?_, ?_, ?_, ?_, ?_, ?_⟩
  · intro hno
    exact ⟨(addpath_missing_path env σ s hno).1, fun hsave =>
      ⟨(save_missing_name env σ s hno hsave).1, (restore_missing_name env σ s hno hsave).1⟩⟩
  · intro h
    obtain ⟨a, ha⟩ := Option.isSome_iff_exists.mp h
    simp [IfcLoadFile.execute, ha]
  · intro hconf hnone
    have hfind : findCapability env (IfcLoadFile.readArgs s).2.1 = none := by
      unfold findCapability
      rw [List.find?_eq_none]
      intro c hc
      simp [hnone c hc]
    simp [IfcLoadFile.execute, hconf, hfind]
  · exact save_open_failure env σ s
  · intro doc hname hdoc hcapa
    exact (restore_no_capability env σ s doc hname hdoc hcapa).1
  · intro doc capa m hname hdoc hcapa hfail
    exact (restore_step_failure env σ s doc capa m hname hdoc hcapa hfail).1

theorem lifecycle_error_kinds_witness :
    (IfcAddpath.execute sampleEnv sampleState (IStream.ofText " ".data)).outcome
        = Outcome.threw (Exn.IfaceParseError "Missing path name") ∧
      ((IfcSave.execute sampleEnv sampleState (IStream.ofText " ".data)).outcome
          = Outcome.threw (Exn.IfaceParseError "Missing savefile name") ∧
        (IfcRestore.execute sampleEnv sampleState (IStream.ofText " ".data)).outcome
          = Outcome.threw (Exn.IfaceParseError "Missing file name")) ∧
      (IfcLoadFile.execute sampleEnv loadedState (IStream.ofText "image.bin".data)).outcome
        = Outcome.threw (Exn.IfaceExecutionError "Load image already present") ∧
      (IfcLoadFile.execute sampleEnv sampleState (IStream.ofText "notes.txt".data)).outcome
        = Outcome.threw (Exn.IfaceExecutionError "Unable to recognize imagefile notes.txt") ∧
      (IfcSave.execute sampleEnv loadedState (IStream.ofText "/nodir/out.xml".data)).outcome
        = Outcome.threw (Exn.IfaceExecutionError "Unable to open file: /nodir/out.xml") ∧
      (IfcRestore.execute sampleEnv sampleState (IStream.ofText "notes.xml".data)).outcome
        = Outcome.threw (Exn.IfaceExecutionError "Could not find savefile tag") ∧
      (IfcRestore.execute sampleEnv sampleState (IStream.ofText "truncated.xml".data)).outcome
        = Outcome.threw (Exn.IfaceExecutionError "Missing save state") :=
  ⟨((lifecycle_error_kinds sampleEnv sampleState (IStream.ofText " ".data)).1
      (Or.inr (by decide))).1,
   ((lifecycle_error_kinds sampleEnv sampleState (IStream.ofText " ".data)).1
      (Or.inr (by decide))).2 rfl,
   (lifecycle_error_kinds sampleEnv loadedState (IStream.ofText "image.bin".data)).2.1 rfl,
   (lifecycle_error_kinds sampleEnv sampleState (IStream.ofText "notes.txt".data)).2.2.1 rfl
      (by decide),
   (lifecycle_error_kinds sampleEnv loadedState
      (IStream.ofText "/nodir/out.xml".data)).2.2.2.1 (by decide) rfl,
   (lifecycle_error_kinds sampleEnv sampleState (IStream.ofText "notes.xml".data)).2.2.2.2.1
      { root := { name := "notes", content := "" } } (by decide) rfl rfl,
   (lifecycle_error_kinds sampleEnv sampleState
      (IStream.ofText "truncated.xml".data)).2.2.2.2.2
      { root := { name := "xml_savefile", content := "truncated" } }
      { name := "xml",
        isFileMatch := fun f => f == "image.xml" || f == "broken.xml",
        isXmlMatch := fun d => d.root.name == "xml_savefile",
        buildArchitecture := fun f t =>
          { capa := "xml", filename := f, target := t, steps := [] } }
      "Missing save state" (by decide) rfl rfl (Or.inl rfl)⟩

/-! ## The remembered file name along a sequence of commands -/

theorem firstToken_length (args : List Char) (f : String) (h : firstToken args = some f) :
    f.length ≠ 0 := by
  unfold firstToken at h
  simp only at h
  split at h
  · cases h
  · rename_i hne
    simp only [Option.some.injEq] at h
    rw [← h]
    intro h0
    apply hne
    have hnil := List.length_eq_zero.mp h0
    simp only at hnil
    rw [hnil]
    rfl

theorem firstToken_blank (args : List Char) (h : ∀ c ∈ args, isspace c = true) :
    firstToken args = none := by
  simp [firstToken, dropWhile_all isspace args h]

/-- On a fresh stream `save` remembers the first token of the text, and keeps
the remembered name when the text has none. -/
theorem save_savefile_ofText {Arch : Type} (env : Env Arch) (σ : ConsoleState Arch)
    (args : List Char) :
    (IfcSave.execute env σ (IStream.ofText args)).state.savefile
      = (firstToken args).getD σ.savefile := by
  rw [save_savefile]
  cases hd : args.dropWhile isspace with
  | nil =>
    simp [IStream.ws, IStream.sentry, IStream.ofText, IStream.good, IStream.eof, firstToken, hd]
  | cons c r =>
    have hc := dropWhile_head_false isspace args c r hd
    simp [IStream.ws, IStream.sentry, IStream.ofText, IStream.good, IStream.eof, firstToken,
      IStream.extract, List.takeWhile_cons, List.dropWhile_cons, hd, hc]

/-- After `restore` the remembered name is what `s >> savefile` left. -/
theorem restore_savefile {Arch : Type} (env : Env Arch) (σ : ConsoleState Arch)
    (s : IStream) :
    (IfcRestore.execute env σ s).state.savefile = (s.extract σ.savefile).2 := by
  by_cases hname : (s.extract σ.savefile).2.length = 0
  · simp [IfcRestore.execute, hname]
  · cases hdoc : env.openDocument (s.extract σ.savefile).2 with
    | error m => exact (restore_document_failure env σ s m hname hdoc).2.2.1
    | ok doc =>
      cases hcapa : findCapabilityDoc env doc with
      | none => exact (restore_no_capability env σ s doc hname hdoc hcapa).2.2.1
      | some capa =>
        simp only [IfcRestore.execute, IfcRestore.build, hdoc, hcapa]
        simp only [hname, beq_iff_eq, if_false]
        split <;>
          simp [ConsoleState.log, ConsoleState.emit, ConsoleState.emitAll, clearArchitecture]

/-- The command `load` does not touch the remembered name. -/
theorem load_savefile {Arch : Type} (env : Env Arch) (σ : ConsoleState Arch) (s : IStream) :
    (IfcLoadFile.execute env σ s).state.savefile = σ.savefile := by
  cases hconf : σ.conf with
  | some a => simp [IfcLoadFile.execute, hconf]
  | none =>
    cases hcapa : findCapability env (IfcLoadFile.readArgs s).2.1 with
    | none => simp [IfcLoadFile.execute, hconf, hcapa, ConsoleState.log]
    | some capa =>
      simp only [IfcLoadFile.execute, hconf, hcapa]
      split
      · simp [IfcLoadFile.rollback, ConsoleState.log, ConsoleState.emit]
      · simp [IfcLoadFile.rollback, ConsoleState.log, ConsoleState.emit]
      · simp [ConsoleState.log]
      · simp [ConsoleState.log]
      · simp only [IfcLoadFile.afterInit, IfcLoadFile.finish]
        split
        · split <;> simp [ConsoleState.log, ConsoleState.emit, ConsoleState.emitAll]
        · simp [ConsoleState.log, ConsoleState.emit]

/-- The command `addpath` does not touch the remembered name. -/
theorem addpath_savefile {Arch : Type} (env : Env Arch) (σ : ConsoleState Arch)
    (s : IStream) :
    (IfcAddpath.execute env σ s).state.savefile = σ.savefile := by
  simp only [IfcAddpath.execute]
  split <;> simp [addDir2Path, ConsoleState.log]

/-- One command: the remembered name becomes the file name token the line
supplies to `save` or `restore`, and stays as it is otherwise. -/
theorem command_savefile {Arch : Type} (env : Env Arch) (σ : ConsoleState Arch)
    (c : Command) :
    (c.execute env σ).state.savefile = c.fileToken.getD σ.savefile := by
  cases c with
  | load a => simp [Command.execute, Command.fileToken, load_savefile]
  | addpath a => simp [Command.execute, Command.fileToken, addpath_savefile]
  | save a => simp [Command.execute, Command.fileToken, save_savefile_ofText]
  | restore a =>
    simp [Command.execute, Command.fileToken, restore_savefile, IStream.extract_ofText]

/-- The slot `savefile` refines the specification: after a sequence of
commands it holds the most recent file name token supplied to a `save` or a
`restore`, and its initial value when there was none. -/
theorem runCommands_savefile {Arch : Type} (env : Env Arch) (cmds : List Command) :
    ∀ (σ0 σ : ConsoleState Arch), runCommands env σ0 cmds = some σ →
      σ.savefile = (lastFileToken cmds).getD σ0.savefile := by
  induction cmds with
  | nil =>
    intro σ0 σ h
    simp only [runCommands, Option.some.injEq] at h
    rw [← h]
    rfl
  | cons c cs ih =>
    intro σ0 σ h
    have hrun : runCommands env (c.execute env σ0).state cs = some σ := by
      simp only [runCommands] at h
      split at h
      · cases h
      · exact h
    have h1 := ih (c.execute env σ0).state σ hrun
    rw [h1, command_savefile]
    simp only [lastFileToken]
    cases lastFileToken cs with
    | none => rfl
    | some t => rfl

theorem lastFileToken_length (cmds : List Command) :
    ∀ f, lastFileToken cmds = some f → f.length ≠ 0 := by
  induction cmds with
  | nil => intro f h; cases h
  | cons c cs ih =>
    intro f h
    simp only [lastFileToken] at h
    cases hcs : lastFileToken cs with
    | some t =>
      rw [hcs] at h
      simp only [Option.some.injEq] at h
      rw [← h]
      exact ih t hcs
    | none =>
      rw [hcs] at h
      cases c with
      | load a => cases h
      | addpath a => cases h
      | save a => exact firstToken_length a f h
      | restore a => exact firstToken_length a f h

/-- A `save` that has a name opens the file of that name first, and opens no
other file. -/
theorem save_opens_file {Arch : Type} (env : Env Arch) (σ : ConsoleState Arch) (s : IStream)
    (hname : (IfcSave.execute env σ s).state.savefile.length ≠ 0) :
    ∃ rest, (IfcSave.execute env σ s).state.trace
        = σ.trace ++ Event.fsOpen (IfcSave.execute env σ s).state.savefile :: rest ∧
      ∀ g, Event.fsOpen g ∉ rest := by
  rw [save_savefile] at hname ⊢
  simp only [IfcSave.execute]
  generalize (if (!s.ws.eof) = true then s.ws.extract σ.savefile else (s.ws, σ.savefile)) = r
    at hname ⊢
  by_cases h2 : env.fsOpen r.2 = true
  · cases hc : σ.conf with
    | none => exact ⟨[], by simp [hname, h2, ConsoleState.log]⟩
    | some a =>
      refine ⟨[Event.saveXml r.2 (env.saveXml a).1, Event.fsClose r.2], ?_, by simp⟩
      cases hw : (env.saveXml a).2 <;> simp [hname, h2, hw, ConsoleState.log]
  · exact ⟨[], by simp [hname, h2, ConsoleState.log]⟩

/-- A `save` that has a name, whose file opens and whose architecture is
present writes to that file: the calls are the open, the `saveXml` of the
architecture to the file, and the close, in this order and nothing else; it
returns unless `saveXml` itself throws. -/
theorem save_writes_file {Arch : Type} (env : Env Arch) (σ : ConsoleState Arch) (s : IStream)
    (arch : Arch)
    (hname : (IfcSave.execute env σ s).state.savefile.length ≠ 0)
    (hconf : σ.conf = some arch)
    (hopen : env.fsOpen (IfcSave.execute env σ s).state.savefile = true) :
    (IfcSave.execute env σ s).state.trace
        = σ.trace ++ [Event.fsOpen (IfcSave.execute env σ s).state.savefile,
            Event.saveXml (IfcSave.execute env σ s).state.savefile (env.saveXml arch).1,
            Event.fsClose (IfcSave.execute env σ s).state.savefile] ∧
      ((env.saveXml arch).2 = none →
        (IfcSave.execute env σ s).outcome = Outcome.returned) ∧
      (IfcSave.execute env σ s).state.conf = some arch := by
  rw [save_savefile] at hname hopen ⊢
  simp only [IfcSave.execute]
  generalize (if (!s.ws.eof) = true then s.ws.extract σ.savefile else (s.ws, σ.savefile)) = r
    at hname hopen ⊢
  cases hw : (env.saveXml arch).2 <;> simp [hname, hopen, hconf, hw, ConsoleState.log]

/-- A `save` that has a name but cannot open the file makes the open call
and no other. -/
theorem save_open_failure_trace {Arch : Type} (env : Env Arch) (σ : ConsoleState Arch)
    (s : IStream)
    (hname : (IfcSave.execute env σ s).state.savefile.length ≠ 0)
    (hopen : env.fsOpen (IfcSave.execute env σ s).state.savefile = false) :
    (IfcSave.execute env σ s).state.trace
      = σ.trace ++ [Event.fsOpen (IfcSave.execute env σ s).state.savefile] := by
  rw [save_savefile] at hname hopen ⊢
  simp only [IfcSave.execute]
  generalize (if (!s.ws.eof) = true then s.ws.extract σ.savefile else (s.ws, σ.savefile)) = r
    at hname hopen ⊢
  simp [hname, hopen, ConsoleState.log]

/-- C6: the single slot `savefile` shared by `save` and `restore`.  Take any
sequence of commands that the console runs from a state with nothing
remembered, and then a bare `save` (an argument text of whitespace only).
If no file name token was supplied to a `save` or `restore` of the sequence,
the bare `save` throws the missing-name error and opens nothing.  Otherwise,
with `f` the most recent such token (whether or not the command that brought
it succeeded), the first thing the bare `save` does is to open `f` for
writing, it opens no other file, and `f` stays remembered.  When `f` opens
and an architecture is present the bare `save` writes to `f`: its calls are
exactly the open of `f`, the `saveXml` of that architecture into `f` and the
close of `f`, the architecture stays installed, and the command returns
unless `saveXml` throws.  When `f` cannot be opened the only call is the
open and the command throws `Unable to open file: ` followed by `f`. -/
theorem bare_save_uses_last_file_token {Arch : Type} (env : Env Arch)
    (σ0 σ : ConsoleState Arch) (cmds : List Command) (args : List Char)
    (h0 : σ0.savefile = "")
    (hrun : runCommands env σ0 cmds = some σ)
    (hbare : ∀ c ∈ args, isspace c = true) :
    (lastFileToken cmds = none →
      (IfcSave.execute env σ (IStream.ofText args)).outcome
          = Outcome.threw (Exn.IfaceParseError "Missing savefile name") ∧
        (IfcSave.execute env σ (IStream.ofText args)).state.trace = σ.trace) ∧
    (∀ f, lastFileToken cmds = some f →
      (IfcSave.execute env σ (IStream.ofText args)).state.savefile = f ∧
        (∃ rest, (IfcSave.execute env σ (IStream.ofText args)).state.trace
            = σ.trace ++ Event.fsOpen f :: rest ∧
          ∀ g, Event.fsOpen g ∉ rest) ∧
        (∀ arch, σ.conf = some arch → env.fsOpen f = true →
          (IfcSave.execute env σ (IStream.ofText args)).state.trace
              = σ.trace ++ [Event.fsOpen f, Event.saveXml f (env.saveXml arch).1,
                  Event.fsClose f] ∧
            ((env.saveXml arch).2 = none →
              (IfcSave.execute env σ (IStream.ofText args)).outcome = Outcome.returned) ∧
            (IfcSave.execute env σ (IStream.ofText args)).state.conf = some arch) ∧
        (env.fsOpen f = false →
          (IfcSave.execute env σ (IStream.ofText args)).outcome
              = Outcome.threw (Exn.IfaceExecutionError ("Unable to open file: " ++ f)) ∧
            (IfcSave.execute env σ (IStream.ofText args)).state.trace
              = σ.trace ++ [Event.fsOpen f])) := by
  have hslot := runCommands_savefile env cmds σ0 σ hrun
  have hkeep : (IfcSave.execute env σ (IStream.ofText args)).state.savefile = σ.savefile := by
    rw [save_savefile_ofText, firstToken_blank args hbare]
    rfl
  constructor
  · intro hnone
    have hempty : σ.savefile = "" := by rw [hslot, hnone]; exact h0
    have h := save_missing_name env σ (IStream.ofText args) (Or.inr hbare) hempty
    exact ⟨h.1, by rw [h.2]⟩
  · intro f hf
    have hsf : σ.savefile = f := by rw [hslot, hf]; rfl
    have hlen : (IfcSave.execute env σ (IStream.ofText args)).state.savefile.length ≠ 0 := by
      rw [hkeep, hsf]
      exact lastFileToken_length cmds f hf
    have hname : (IfcSave.execute env σ (IStream.ofText args)).state.savefile = f := by
      rw [hkeep, hsf]
    have h := save_opens_file env σ (IStream.ofText args) hlen
    rw [hname] at h
    refine ⟨hname, h, ?_, ?_⟩
    · intro arch hconf hopen
      have hw := save_writes_file env σ (IStream.ofText args) arch hlen hconf
        (by rw [hname]; exact hopen)
      rw [hname] at hw
      exact hw
    · intro hopen
      have ho := save_open_failure env σ (IStream.ofText args) hlen
        (by rw [hname]; exact hopen)
      have ht := save_open_failure_trace env σ (IStream.ofText args) hlen
        (by rw [hname]; exact hopen)
      rw [hname] at ho ht
      exact ⟨ho, ht⟩

theorem bare_save_uses_last_file_token_witness :
    ((IfcSave.execute sampleEnv afterNamelessHistory (IStream.ofText " ".data)).outcome
        = Outcome.threw (Exn.IfaceParseError "Missing savefile name") ∧
      (IfcSave.execute sampleEnv afterNamelessHistory (IStream.ofText " ".data)).state.trace
        = afterNamelessHistory.trace) ∧
    ((IfcSave.execute sampleEnv afterNamedHistory (IStream.ofText " ".data)).state.savefile
        = "missing.xml" ∧
      ∃ rest, (IfcSave.execute sampleEnv afterNamedHistory (IStream.ofText " ".data)).state.trace
          = afterNamedHistory.trace ++ Event.fsOpen "missing.xml" :: rest ∧
        ∀ g, Event.fsOpen g ∉ rest) ∧
    ((IfcSave.execute sampleEnv afterNamedHistory (IStream.ofText " ".data)).state.trace
        = afterNamedHistory.trace ++ [Event.fsOpen "missing.xml",
            Event.saveXml "missing.xml" "<save_state/>", Event.fsClose "missing.xml"] ∧
      (IfcSave.execute sampleEnv afterNamedHistory (IStream.ofText " ".data)).outcome
        = Outcome.returned) ∧
    ((IfcSave.execute sampleEnv afterBlockedHistory (IStream.ofText " ".data)).outcome
        = Outcome.threw (Exn.IfaceExecutionError "Unable to open file: /nodir/out.xml") ∧
      (IfcSave.execute sampleEnv afterBlockedHistory (IStream.ofText " ".data)).state.trace
        = afterBlockedHistory.trace ++ [Event.fsOpen "/nodir/out.xml"]) :=
  have hnamed := (bare_save_uses_last_file_token sampleEnv loadedState afterNamedHistory
    namedHistory " ".data rfl rfl (by decide)).2 "missing.xml" rfl
  have hwrite := hnamed.2.2.1
    { capa := "xml", filename := "image.xml", target := "default",
      steps := ["init", "readLoaderSymbols"] } rfl rfl
  ⟨(bare_save_uses_last_file_token sampleEnv loadedState afterNamelessHistory namelessHistory
      " ".data rfl rfl (by decide)).1 rfl,
   ⟨hnamed.1, hnamed.2.1⟩,
   ⟨hwrite.1, hwrite.2.1 rfl⟩,
   ((bare_save_uses_last_file_token sampleEnv loadedState afterBlockedHistory blockedHistory
      " ".data rfl rfl (by decide)).2 "/nodir/out.xml" rfl).2.2.2 rfl⟩

end Console
